import Mathlib

/-!
# Verification of the freelance-bidding bot pipeline

Shallow embedding of the pipeline in `bot.ipynb`:
string post-processing of LLM replies, the `Budget:`/`Deadline:` parser,
the eligibility filter, the LLM service-match refinement, the pricing
branch logic, bid placement, and the outer polling/submission loop.

Python numbers (ints and floats used for budgets, rates and amounts) are
modelled as `ℚ`; parsed integers as `ℕ`.  Fallible external calls (SDK
lookups, LLM invocations, bid placement) are modelled as oracle functions
returning `Except String _`; a Python `try/except` that swallows the
exception corresponds to matching on the `Except`, while code with no
handler propagates the `.error` value.
-/

/-- A Python-style prefix test on character lists: `startsWithL pat s`
is `true` iff `s` begins with `pat`. -/
def startsWithL : List Char → List Char → Bool
  | [], _ => true
  | _ :: _, [] => false
  | p :: ps, c :: cs => p == c && startsWithL ps cs

/-- `breakOn pat s` finds the leftmost occurrence of `pat` in `s`,
returning the characters before it and the characters after it
(`none` when `pat` does not occur).  This is the scanning step of
Python's `re.search` / `re.sub` on a literal pattern. -/
def breakOn (pat : List Char) : List Char → Option (List Char × List Char)
  | [] => none
  | c :: cs =>
    if startsWithL pat (c :: cs) then some ([], (c :: cs).drop pat.length)
    else
      match breakOn pat cs with
      | some (pre, post) => some (c :: pre, post)
      | none => none

/-- The literal opening tag of a chain-of-thought block. -/
def openTag : List Char := "<think>".data

/-- The literal closing tag of a chain-of-thought block. -/
def closeTag : List Char := "</think>".data

/-- `removeThink s` deletes every non-greedy `<think>...</think>` block,
the semantics of Python's
`re.sub(r'<think>.*?</think>', '', s, flags=re.DOTALL)`:
repeatedly delete from the leftmost `<think>` through the first
`</think>` after it; an unclosed `<think>` is left in place. -/
def removeThink (s : List Char) : List Char :=
  match h1 : breakOn openTag s with
  | none => s
  | some (pre, rest) =>
    match h2 : breakOn closeTag rest with
    | none => s
    | some (_, post) => pre ++ removeThink post
termination_by s.length
decreasing_by
  have hsw : ∀ (pat t : List Char), startsWithL pat t = true → pat.length ≤ t.length := by
    intro pat
    induction pat with
    | nil => intro t _; simp
    | cons p ps ih =>
      intro t h
      cases t with
      | nil => simp [startsWithL] at h
      | cons c cs =>
        simp only [startsWithL, Bool.and_eq_true] at h
        simpa using ih cs h.2
  have key : ∀ (pat t : List Char), ∀ pre post,
      breakOn pat t = some (pre, post) →
      pre.length + pat.length + post.length = t.length := by
    intro pat t
    induction t with
    | nil => intro pre post h; simp [breakOn] at h
    | cons c cs ih =>
      intro pre post h
      rw [breakOn] at h
      by_cases hp : startsWithL pat (c :: cs) = true
      · rw [if_pos hp] at h
        have hle := hsw pat (c :: cs) hp
        injection h with h2
        injection h2 with hA hB
        subst hA; subst hB
        simp only [List.length_nil, List.length_drop]
        omega
      · rw [if_neg hp] at h
        cases hrec : breakOn pat cs with
        | none => rw [hrec] at h; exact absurd h (by simp)
        | some pr =>
          rw [hrec] at h
          obtain ⟨pre', post'⟩ := pr
          injection h with h2
          injection h2 with hA hB
          subst hA; subst hB
          have := ih pre' post' hrec
          simp only [List.length_cons]
          omega
  have e1 := key _ _ _ _ h1
  have e2 := key _ _ _ _ h2
  have l1 : openTag.length = 7 := by decide
  have l2 : closeTag.length = 8 := by decide
  rw [l1] at e1
  rw [l2] at e2
  omega

/-- `removeThink` lifted to `String`. -/
def removeThinkStr (s : String) : String := ⟨removeThink s.data⟩

/-- Python's `\s` character class (ASCII): space, tab, newline,
carriage return, vertical tab, form feed. -/
def pySpace (c : Char) : Bool :=
  c == ' ' || c == '\t' || c == '\n' || c == '\r' || c == '\x0b' || c == '\x0c'

/-- Python's `str.lower()` (restricted to ASCII letters, the only case
the pipeline's literals exercise). -/
def pyLower (s : String) : String := ⟨s.data.map Char.toLower⟩

/-- Python's `str.strip()`: drop leading and trailing whitespace. -/
def pyStrip (s : String) : String :=
  ⟨((s.data.dropWhile pySpace).reverse.dropWhile pySpace).reverse⟩

/-- Take the maximal leading run of decimal digits, the `(\d+)` capture. -/
def takeDigits : List Char → List Char × List Char
  | [] => ([], [])
  | c :: cs =>
    if c.isDigit then
      let r := takeDigits cs
      (c :: r.1, r.2)
    else ([], c :: cs)

/-- Numeric value of a digit run, Python's `int()` on the capture. -/
def digitsToNat (ds : List Char) : Nat :=
  ds.foldl (fun a c => 10 * a + (c.toNat - '0'.toNat)) 0

/-- Try to match `key` then `\s*` then `(\d+)` at the head of `s`,
returning the captured number.  This is one anchor position of
`re.search(key + r"\s*(\d+)", ...)`. -/
def matchKeyNum (key s : List Char) : Option Nat :=
  if startsWithL key s then
    let rest := (s.drop key.length).dropWhile pySpace
    let ds := (takeDigits rest).1
    if ds.isEmpty then none else some (digitsToNat ds)
  else none

/-- Leftmost match of `key` + `\s*` + `(\d+)` anywhere in `s`;
the scan of `re.search`. -/
def findKeyNum (key : List Char) : List Char → Option Nat
  | [] => none
  | c :: cs =>
    match matchKeyNum key (c :: cs) with
    | some n => some n
    | none => findKeyNum key cs

/-- The literal `Budget:` key of the pricing-reply pattern. -/
def budgetKey : List Char := "Budget:".data

/-- The literal `Deadline:` key of the pricing-reply pattern. -/
def deadlineKey : List Char := "Deadline:".data

/-- `extract_budget_and_deadline` from the notebook: search the reply for
`Budget:\s*(\d+)` and `Deadline:\s*(\d+)`; if both match return both
integers, otherwise return the pair of `none`s. -/
def extract_budget_and_deadline (info : String) : Option Nat × Option Nat :=
  let b := findKeyNum budgetKey info.data
  let d := findKeyNum deadlineKey info.data
  match b, d with
  | some bb, some dd => (some bb, some dd)
  | _, _ => (none, none)

/-!
## Data model

`RawProject` is one entry of the search feed.  The `exchange_rate` field
of the raw currency dict is modelled as `Option (Option ℚ)`:
`none` = the key is absent (Python `.get` then yields the default `1`),
`some none` = the key is present with value `null`/`None`,
`some (some r)` = the key is present with numeric value `r`.
-/

deriving instance DecidableEq for Except

structure RawProject where
  id : Nat
  owner_id : Nat
  currency_code : String
  exchange_rate : Option (Option ℚ)
  nda : Bool
  status : String
  ptype : String
deriving DecidableEq

/-- The owner record consulted by the filter (only the country name is
read: `user_details.get("location").get("country").get("name", "")`). -/
structure UserRec where
  country : String
deriving DecidableEq

/-- The enrichment record returned by the project-details lookup. -/
structure DetailRec where
  title : String
  description : String
  minimum : ℚ
  maximum : ℚ
deriving DecidableEq

/-- The dict built by `filter_projects` for each surviving project. -/
structure Enriched where
  id : Nat
  owner_id : Nat
  title : String
  description : String
  minimum_budget : ℚ
  maximum_budget : ℚ
  currency : String
  ptype : String
  exchange_rate : Option ℚ
deriving DecidableEq

/-- The dict appended by `shortlist_projects_and_generate_bids`.
`bid_amount` and `bid_period` are `Option`s because in the Python the
local variables `bid_amount`/`deadline` are only defined by whichever
branch runs; the pricing proofs show they are always `some`. -/
structure Draft where
  project_id : Nat
  bid_content : String
  bid_amount : Option ℚ
  bid_period : Option Nat
  currency_code : String
deriving DecidableEq

/-- `unwanted_currencies` from the notebook configuration. -/
def unwanted_currencies : List String := ["INR", "PKR", "BDT"]

/-- `unwanted_countries` from the notebook configuration. -/
def unwanted_countries : List String :=
  ["india", "bangladesh", "pakistan", "srilanka", "south africa", "kenya",
   "uganda", "eygpt", "indonesia", "philippines", "afganistan"]

/-!
## Step 1: `filter_projects`

The per-project rejection predicates in source order: owner country,
currency, NDA, status.  The owner lookup and the details lookup are
oracle parameters.  There is no `try/except` in the source function, so
a failing lookup propagates: the whole call returns `.error`.
-/

def filter_projects (uL : Nat → Except String UserRec)
    (dL : Nat → Except String DetailRec) :
    List RawProject → Except String (List Enriched)
  | [] => .ok []
  | p :: rest =>
    match uL p.owner_id with
    | .error e => .error e
    | .ok usr =>
      if pyLower usr.country ∈ unwanted_countries then filter_projects uL dL rest
      else if p.currency_code ∈ unwanted_currencies then filter_projects uL dL rest
      else if p.nda then filter_projects uL dL rest
      else if pyLower p.status ≠ "active" then filter_projects uL dL rest
      else
        match dL p.id with
        | .error e => .error e
        | .ok d =>
          match filter_projects uL dL rest with
          | .error e => .error e
          | .ok restF =>
            .ok (⟨p.id, p.owner_id, d.title, d.description, d.minimum, d.maximum,
                  p.currency_code, p.ptype, p.exchange_rate.getD (some 1)⟩ :: restF)

/-!
## Step 2: LLM service-match refinement

The LLM is an oracle `Enriched → Except String String`; `.error`
models a raised exception, `.ok c` models `response.content`.
-/

/-- `check_project_match_with_llm`: returns `response.content.strip()`
on success and `""` when the call raises (the `except` branch). -/
def check_project_match_with_llm (oracle : Enriched → Except String String)
    (p : Enriched) : String :=
  match oracle p with
  | .ok c => pyStrip c
  | .error _ => ""

/-- `refine_projects_with_llm`: keep the projects whose post-processed
verdict (think-blocks removed, stripped) equals `"match"` after
lowercasing. -/
def refine_projects_with_llm (oracle : Enriched → Except String String) :
    List Enriched → List Enriched
  | [] => []
  | p :: rest =>
    let result := pyStrip (removeThinkStr (check_project_match_with_llm oracle p))
    if pyLower result = "match" then p :: refine_projects_with_llm oracle rest
    else refine_projects_with_llm oracle rest

/-!
## Steps 3-4: pricing and draft generation
-/

/-- `analyze_budget_deadline`: the LLM reply with think-blocks removed
and stripped, or `""` when the call raises. -/
def analyze_budget_deadline (oracle : Enriched → Except String String)
    (p : Enriched) : String :=
  match oracle p with
  | .ok c => pyStrip (removeThinkStr c)
  | .error _ => ""

/-- `generate_bid_content`: identical error shape to
`analyze_budget_deadline`, with its own oracle. -/
def generate_bid_content (oracle : Enriched → Except String String)
    (p : Enriched) : String :=
  match oracle p with
  | .ok c => pyStrip (removeThinkStr c)
  | .error _ => ""

/-- The pricing branch logic of `shortlist_projects_and_generate_bids`
for one project, given the (already post-processed) pricing reply.
It mirrors the three sequential `if`s of the source: the fixed/unparsed
fallback, the parsed conversion (`(budget / rate) if rate else 1000`
after `budget = max(70, budget)`), and the non-fixed override.  The
first component tracks the `bid_amount` variable (`none` = not assigned
by any branch), the second the `deadline` variable. -/
def priceProject (p : Enriched) (info : String) : Option ℚ × Option Nat :=
  let bd := extract_budget_and_deadline info
  let budget := bd.1
  let deadline := bd.2
  let s1 : Option ℚ × Option Nat :=
    if (budget = none ∨ deadline = none) ∧ pyLower p.ptype = "fixed" then
      (some (max 70 (p.minimum_budget + p.maximum_budget / (1.5 : ℚ))), some 7)
    else (none, deadline)
  let s2 : Option ℚ × Option Nat :=
    match budget, deadline with
    | some b, some _ =>
      let b' := max 70 b
      (match p.exchange_rate with
       | some r => if r ≠ 0 then some ((b' : ℚ) / r) else some 1000
       | none => some 1000,
       s1.2)
    | _, _ => s1
  if pyLower p.ptype ≠ "fixed" then
    (some ((p.maximum_budget + p.minimum_budget) / 2), some 40)
  else s2

/-- `shortlist_projects_and_generate_bids`: for each refined project,
run the pricing analysis and the bid-copy generation and collect the
draft dict. -/
def shortlist_projects_and_generate_bids
    (analyzeOracle contentOracle : Enriched → Except String String)
    (ps : List Enriched) : List Draft :=
  ps.map fun p =>
    let info := analyze_budget_deadline analyzeOracle p
    let r := priceProject p info
    ⟨p.id, generate_bid_content contentOracle p, r.1, r.2, p.currency⟩

/-!
## Step 5: bid placement and the polling loop

`place_bid` swallows every exception, so it is modelled as a total
function returning the list of external calls it made.  The events are
what the cap/attempt claims are about.
-/

/-- An external marketplace call made during the submission of one
draft. -/
inductive BidEv where
  | placeCall (pid : Nat)
  | sealCall (bidId : Nat)
deriving DecidableEq

/-- The oracle bundle for one run: SDK lookups, the three LLM calls,
identity resolution, bid placement (`.ok none` = falsy response,
`.ok (some i)` = response with bid id `i`) and the best-effort seal. -/
structure RunEnv where
  userLookup : Nat → Except String UserRec
  detailLookup : Nat → Except String DetailRec
  matchOracle : Enriched → Except String String
  analyzeOracle : Enriched → Except String String
  contentOracle : Enriched → Except String String
  selfId : Nat → Except String Nat
  placeBidCall : Nat → Nat → Option ℚ → Option Nat → String → Except String (Option Nat)
  sealOracle : Nat → Except String String

/-- `place_bid`: resolve the own user id (failure returns with no
placement call made), then call `place_project_bid` (its failure is
caught), and on a truthy response attempt the seal call (its failure is
caught). -/
def place_bid (env : RunEnv) (d : Draft) : List BidEv :=
  match env.selfId d.project_id with
  | .error _ => []
  | .ok uid =>
    match env.placeBidCall d.project_id uid d.bid_amount d.bid_period d.bid_content with
    | .error _ => [.placeCall d.project_id]
    | .ok none => [.placeCall d.project_id]
    | .ok (some bidId) => [.placeCall d.project_id, .sealCall bidId]

/-- The inner submission loop (`for bid in shortlisted_bids`): before
each draft the counter is checked against the cap (`break`), then
`place_bid` runs and the counter is incremented unconditionally.
Returns the final counter and the events tagged with the counter value
at the time of the draft's processing. -/
def submit_drafts (env : RunEnv) (L : Nat) :
    List Draft → Nat → Nat × List (Nat × BidEv)
  | [], c => (c, [])
  | d :: rest, c =>
    if L ≤ c then (c, [])
    else
      let evs := (place_bid env d).map (fun e => (c, e))
      let r := submit_drafts env L rest (c + 1)
      (r.1, evs ++ r.2)

/-- The mutable state of the outer loop: `processed_project_ids` and
`bid_counter`. -/
structure LoopSt where
  processed : List Nat
  counter : Nat
deriving DecidableEq

/-- How a modelled run ended: the `while` condition became false
(`finished`), the supplied list of fetch results was exhausted while
still below the cap (`outOfCycles`), or an uncaught exception escaped
the cycle body (`crashed`) — in the source only the fetch is inside a
`try`, so a `filter_projects` error kills the run. -/
inductive RunEnd where
  | finished
  | outOfCycles
  | crashed (e : String)
deriving DecidableEq

/-- The observable outcome of a run: final state, the per-cycle
`new_projects` id lists, the counter-tagged submission events, and how
the run ended. -/
structure RunOut where
  final : LoopSt
  newsSets : List (List Nat)
  events : List (Nat × BidEv)
  ending : RunEnd
deriving DecidableEq

/-- One fetch result of the polling loop: the caught `search_projects`
outcome. -/
abbrev FetchRes := Except String (List RawProject)

/-- The outer polling loop (`while bid_counter < BID_LIMIT`), driven by
a finite list of fetch results.  A fetch error sleeps and retries; an
`ok` batch is deduplicated against `processed`, all new ids are added
to `processed` before filtering, then the pipeline and the inner
submission loop run; a lookup error inside `filter_projects` is not
caught anywhere and crashes the run. -/
def runLoop (env : RunEnv) (L : Nat) :
    List FetchRes → LoopSt → RunOut
  | [], st =>
    if st.counter < L then ⟨st, [], [], .outOfCycles⟩
    else ⟨st, [], [], .finished⟩
  | cyc :: rest, st =>
    if st.counter < L then
      match cyc with
      | .error _ => runLoop env L rest st
      | .ok batch =>
        let newProjects := batch.filter (fun p => !(st.processed.contains p.id))
        let newIds := newProjects.map (·.id)
        let processed' := newProjects.foldl (fun acc p => acc.insert p.id) st.processed
        match filter_projects env.userLookup env.detailLookup newProjects with
        | .error e => ⟨⟨processed', st.counter⟩, [newIds], [], .crashed e⟩
        | .ok filtered =>
          let refined := refine_projects_with_llm env.matchOracle filtered
          let drafts := shortlist_projects_and_generate_bids
            env.analyzeOracle env.contentOracle refined
          let r := submit_drafts env L drafts st.counter
          let out := runLoop env L rest ⟨processed', r.1⟩
          ⟨out.final, newIds :: out.newsSets, r.2 ++ out.events, out.ending⟩
    else ⟨st, [], [], .finished⟩

/-!
## Concrete fixtures used by witnesses and counterexamples
-/

/-- A fixed-type enriched project, client budget 200-800, exchange rate 2. -/
def pFixed : Enriched := ⟨1, 11, "t", "d", 200, 800, "AUD", "fixed", some 2⟩

/-- A fixed-type enriched project, client budget 200-300, exchange rate 2. -/
def pFixedLow : Enriched := ⟨2, 12, "t", "d", 200, 300, "AUD", "fixed", some 2⟩

/-- A fixed-type enriched project, client budget 100-600, exchange rate 1. -/
def pFixedFb : Enriched := ⟨3, 13, "t", "d", 100, 600, "USD", "fixed", some 1⟩

/-- An hourly enriched project, client budget 300-900. -/
def pHourly : Enriched := ⟨4, 14, "t", "d", 300, 900, "USD", "hourly", some 1⟩

/-- A well-formed pricing reply. -/
def infoParsed : String := "Budget: 600 USD, Deadline: 10 days"

/-- A well-formed pricing reply whose budget is at the USD floor. -/
def infoLow : String := "Budget: 70 USD, Deadline: 5 days"

/-- An unparseable pricing reply. -/
def infoBad : String := "no numbers here"

/-- An owner lookup that always succeeds with an allowed country. -/
def uOk : Nat → Except String UserRec := fun _ => .ok ⟨"usa"⟩

/-- A details lookup that always succeeds. -/
def dOk : Nat → Except String DetailRec := fun _ => .ok ⟨"t", "d", 100, 200⟩

/-- A details lookup that always raises. -/
def dBad : Nat → Except String DetailRec := fun _ => .error "lookup failed"

/-- An owner lookup that always raises. -/
def uBad : Nat → Except String UserRec := fun _ => .error "user down"

/-- An eligible raw project. -/
def rawA : RawProject := ⟨21, 31, "USD", some (some 1), false, "active", "fixed"⟩

/-- A second eligible raw project. -/
def rawB : RawProject := ⟨22, 32, "USD", some (some 1), false, "active", "fixed"⟩

/-- A concrete draft. -/
def draftW : Draft := ⟨21, "copy", some 100, some 7, "USD"⟩

/-- An environment in which every external call succeeds. -/
def envOk : RunEnv :=
  ⟨uOk, dOk, fun _ => .ok "MATCH", fun _ => .ok infoParsed, fun _ => .ok "copy",
   fun _ => .ok 42, fun _ _ _ _ _ => .ok (some 7), fun _ => .ok "sealed"⟩

/-- An environment in which identity resolution always fails. -/
def envSelfFail : RunEnv :=
  ⟨uOk, dOk, fun _ => .ok "MATCH", fun _ => .ok infoParsed, fun _ => .ok "copy",
   fun _ => .error "auth down", fun _ _ _ _ _ => .ok (some 7), fun _ => .ok "sealed"⟩

/-- An LLM oracle that always raises. -/
def matchFail : Enriched → Except String String := fun _ => .error "rate limited"


/-!
## Pricing lemmas

Helper equations for the three branches of `priceProject`, shared by the
claim theorems below.
-/

theorem priceProject_fixed_parsed_eq (p : Enriched) (info : String) (b d : Nat)
    (hty : pyLower p.ptype = "fixed")
    (hx : extract_budget_and_deadline info = (some b, some d)) :
    priceProject p info =
      (match p.exchange_rate with
       | some r => if r ≠ 0 then some (((max 70 b : Nat) : ℚ) / r) else some 1000
       | none => some 1000,
       some d) := by
  simp only [priceProject, hx, hty]
  simp

theorem priceProject_fixed_unparsed_eq (p : Enriched) (info : String)
    (hty : pyLower p.ptype = "fixed")
    (hx : (extract_budget_and_deadline info).1 = none ∨
          (extract_budget_and_deadline info).2 = none) :
    priceProject p info =
      (some (max 70 (p.minimum_budget + p.maximum_budget / (1.5 : ℚ))), some 7) := by
  rcases hx with hb | hd
  · rcases hdv : (extract_budget_and_deadline info).2 with _ | d
    · simp only [priceProject, hb, hdv, hty]
      simp
    · simp only [priceProject, hb, hdv, hty]
      simp
  · rcases hbv : (extract_budget_and_deadline info).1 with _ | b
    · simp only [priceProject, hbv, hd, hty]
      simp
    · simp only [priceProject, hbv, hd, hty]
      simp

theorem priceProject_nonfixed_eq (p : Enriched) (info : String)
    (hty : pyLower p.ptype ≠ "fixed") :
    priceProject p info =
      (some ((p.maximum_budget + p.minimum_budget) / 2), some 40) := by
  simp only [priceProject]
  rw [if_pos hty]

/-!
## Claim theorems: pricing (C4, C5, C6, C9)
-/

/-- C4: for a fixed-type qualified project whose pricing reply parses to
budget `b` and deadline `d`, a nonzero exchange rate `r` yields bid
amount `max 70 b / r` and bid period `d`; a zero or absent (`None`)
exchange rate yields bid amount exactly `1000`. -/
theorem fixed_parsed_pricing (p : Enriched) (info : String) (b d : Nat)
    (hty : pyLower p.ptype = "fixed")
    (hx : extract_budget_and_deadline info = (some b, some d)) :
    (∀ r : ℚ, p.exchange_rate = some r → r ≠ 0 →
      priceProject p info = (some (((max 70 b : Nat) : ℚ) / r), some d))
    ∧ ((p.exchange_rate = some 0 ∨ p.exchange_rate = none) →
      (priceProject p info).1 = some 1000) := by
  constructor
  · intro r hr hr0
    rw [priceProject_fixed_parsed_eq p info b d hty hx, hr]
    simp [hr0]
  · intro hdeg
    rw [priceProject_fixed_parsed_eq p info b d hty hx]
    rcases hdeg with h0 | hn
    · rw [h0]; simp
    · rw [hn]

/-- Witness for C4 at the spec's own scenario: fixed project, rate 2,
reply `Budget: 600 USD, Deadline: 10 days` gives amount 300, period 10. -/
theorem fixed_parsed_pricing_witness :
    priceProject pFixed infoParsed = (some 300, some 10) := by
  have h := (fixed_parsed_pricing pFixed infoParsed 600 10 (by decide) (by decide)).1
    2 rfl (by norm_num)
  rw [h]
  norm_num

/-- C5: for a non-fixed-type project, the bid amount is the midpoint of
the client's min and max budgets and the period is 40 days, for every
pricing reply (malformed or empty included). -/
theorem nonfixed_override_pricing (p : Enriched) (info : String)
    (hty : pyLower p.ptype ≠ "fixed") :
    priceProject p info =
      (some ((p.minimum_budget + p.maximum_budget) / 2), some 40) := by
  rw [priceProject_nonfixed_eq p info hty, add_comm p.maximum_budget]

/-- Witness for C5: hourly project with budget 300-900 and a malformed
reply is priced at 600 with period 40. -/
theorem nonfixed_override_pricing_witness :
    priceProject pHourly infoBad = (some 600, some 40) := by
  have h := nonfixed_override_pricing pHourly infoBad (by decide)
  rw [h]
  norm_num [pHourly]

/-- C6: for a fixed-type project whose pricing reply does not parse,
the bid amount is `max 70 (min + max / 1.5)` and the period is 7 days. -/
theorem fixed_unparsed_fallback (p : Enriched) (info : String)
    (hty : pyLower p.ptype = "fixed")
    (hx : (extract_budget_and_deadline info).1 = none ∨
          (extract_budget_and_deadline info).2 = none) :
    priceProject p info =
      (some (max 70 (p.minimum_budget + p.maximum_budget / (1.5 : ℚ))), some 7) :=
  priceProject_fixed_unparsed_eq p info hty hx

/-- Witness for C6 at the spec's own scenario: fixed project with budget
100-600 and an unparseable reply is priced at 500 with period 7. -/
theorem fixed_unparsed_fallback_witness :
    priceProject pFixedFb infoBad = (some 500, some 7) := by
  have h := fixed_unparsed_fallback pFixedFb infoBad (by decide) (Or.inl (by decide))
  rw [h]
  rw [show pFixedFb.minimum_budget = 100 from rfl, show pFixedFb.maximum_budget = 600 from rfl]
  rw [max_eq_right (by norm_num : (70:ℚ) ≤ 100 + 600 / 1.5)]
  norm_num

/-- Counterexample to C9: a fixed project with client budget 200-300
and exchange rate 2 whose reply parses to budget 70 is priced at 35,
which is below the configured floor 70 and below the client minimum
budget 200. -/
theorem pricing_floor_cex :
    (priceProject pFixedLow infoLow).1 = some 35 ∧
    ¬ ((70 : ℚ) ≤ 35) ∧ ¬ (pFixedLow.minimum_budget ≤ 35) := by
  refine ⟨?_, by norm_num, by norm_num [pFixedLow]⟩
  have h : extract_budget_and_deadline infoLow = (some 70, some 5) := by decide
  have hl : pyLower "fixed" = "fixed" := by decide
  simp [priceProject, h, hl, pFixedLow]
  norm_num

/-- C9 as amended: the floor holds only on the fixed/unparsed fallback
path — there, given a nonnegative client maximum budget, the bid amount
is at least 70 and at least the client's minimum budget. -/
theorem pricing_floor_amended (p : Enriched) (info : String)
    (hty : pyLower p.ptype = "fixed")
    (hx : (extract_budget_and_deadline info).1 = none)
    (hmax : 0 ≤ p.maximum_budget) :
    ∃ a : ℚ, (priceProject p info).1 = some a ∧ 70 ≤ a ∧ p.minimum_budget ≤ a := by
  refine ⟨max 70 (p.minimum_budget + p.maximum_budget / (1.5 : ℚ)), ?_, le_max_left _ _, ?_⟩
  · rw [priceProject_fixed_unparsed_eq p info hty (Or.inl hx)]
  · have h1 : p.minimum_budget ≤ p.minimum_budget + p.maximum_budget / (1.5 : ℚ) :=
      le_add_of_nonneg_right (div_nonneg hmax (by norm_num))
    exact h1.trans (le_max_right _ _)

/-- Witness for the amended C9: the fallback path on the 100-600 fixed
project yields an amount at least 70 and at least the client minimum. -/
theorem pricing_floor_amended_witness :
    ∃ a : ℚ, (priceProject pFixedFb infoBad).1 = some a ∧ 70 ≤ a ∧
      pFixedFb.minimum_budget ≤ a :=
  pricing_floor_amended pFixedFb infoBad (by decide) (by decide) (by norm_num [pFixedFb])

/-!
## Claim theorems: qualification (C7)
-/

theorem refine_eq_filter (oracle : Enriched → Except String String)
    (ps : List Enriched) :
    refine_projects_with_llm oracle ps = ps.filter (fun p =>
      decide (pyLower (pyStrip (removeThinkStr (check_project_match_with_llm oracle p)))
        = "match")) := by
  induction ps with
  | nil => rfl
  | cons q rest ih =>
    rw [refine_projects_with_llm, List.filter_cons]
    by_cases hq : pyLower (pyStrip (removeThinkStr (check_project_match_with_llm oracle q)))
        = "match"
    · simp [hq, ih]
    · simp [hq, ih]

theorem removeThinkStr_empty : removeThinkStr "" = "" := by
  simp [removeThinkStr, removeThink, breakOn]

/-- C7: a project is in the refined (qualified) set iff it was in the
input and the LLM call succeeded with content that, after stripping,
think-block removal, re-stripping and lowercasing, equals `"match"`;
in particular an erroring LLM call excludes the project while the rest
of the batch is still processed. -/
theorem qualifier_match_iff (oracle : Enriched → Except String String)
    (ps : List Enriched) (p : Enriched) :
    (p ∈ refine_projects_with_llm oracle ps ↔
      p ∈ ps ∧ ∃ c, oracle p = .ok c ∧
        pyLower (pyStrip (removeThinkStr (pyStrip c))) = "match")
    ∧ (∀ e, oracle p = .error e → p ∉ refine_projects_with_llm oracle ps) := by
  have hmain : p ∈ refine_projects_with_llm oracle ps ↔
      p ∈ ps ∧ ∃ c, oracle p = .ok c ∧
        pyLower (pyStrip (removeThinkStr (pyStrip c))) = "match" := by
    rw [refine_eq_filter, List.mem_filter, decide_eq_true_iff]
    cases horc : oracle p with
    | ok c =>
      constructor
      · rintro ⟨hp, hm⟩
        refine ⟨hp, c, rfl, ?_⟩
        rw [check_project_match_with_llm, horc] at hm
        exact hm
      · rintro ⟨hp, c', hc', hm⟩
        injection hc' with hcc
        refine ⟨hp, ?_⟩
        rw [check_project_match_with_llm, horc, hcc]
        exact hm
    | error e =>
      constructor
      · rintro ⟨hp, hm⟩
        rw [check_project_match_with_llm, horc, removeThinkStr_empty] at hm
        exact absurd hm (by decide)
      · rintro ⟨hp, c', hc', hm⟩
        exact absurd hc' (by simp)
  refine ⟨hmain, fun e he hmem => ?_⟩
  obtain ⟨_, c', hc', _⟩ := hmain.mp hmem
  rw [he] at hc'
  exact absurd hc' (by simp)

/-- Witness for C7: an always-erroring qualifier oracle excludes the
project (fail-closed). -/
theorem qualifier_match_iff_witness :
    pHourly ∉ refine_projects_with_llm matchFail [pHourly] :=
  (qualifier_match_iff matchFail [pHourly] pHourly).2 "rate limited" rfl

/-!
## Claim theorems: eligibility-filter error handling (C8)
-/

/-- Counterexample to C8: with a details lookup that raises for every
project, a two-project batch produces no enriched results at all — the
error propagates out of `filter_projects` instead of the second
project's enrichment being returned. -/
theorem filter_abort_cex :
    filter_projects uOk dBad [rawA, rawB] = .error "lookup failed" ∧
    (filter_projects uOk dBad [rawA, rawB]).toOption = none := by
  constructor <;> decide

/-- C8 as amended: a failing per-project lookup (owner lookup, or the
details lookup of a project that passed every rejection predicate)
aborts the entire batch: `filter_projects` propagates the error and
returns enriched results for no project. -/
theorem filter_lookup_aborts_batch
    (uL : Nat → Except String UserRec) (dL : Nat → Except String DetailRec)
    (p : RawProject) (rest : List RawProject) (e : String) :
    (uL p.owner_id = .error e → filter_projects uL dL (p :: rest) = .error e)
    ∧ (∀ usr : UserRec, uL p.owner_id = .ok usr →
        pyLower usr.country ∉ unwanted_countries →
        p.currency_code ∉ unwanted_currencies →
        p.nda = false →
        pyLower p.status = "active" →
        dL p.id = .error e →
        filter_projects uL dL (p :: rest) = .error e) := by
  constructor
  · intro h
    rw [filter_projects, h]
  · intro usr hu hctry hcur hnda hst hd
    rw [filter_projects, hu]
    dsimp only
    rw [if_neg hctry, if_neg hcur, if_neg (by simp [hnda]), if_neg (by simp [hst]), hd]

/-- Witness for the amended C8: an erroring owner lookup aborts the
batch. -/
theorem filter_lookup_aborts_batch_witness :
    filter_projects uBad dOk [rawA] = .error "user down" :=
  (filter_lookup_aborts_batch uBad dOk rawA [] "user down").1 rfl

/-!
## Claim theorems: identity failure and the bid counter (C3)
-/

/-- Counterexample to C3: when identity resolution fails, `place_bid`
makes no placement call, yet the submission loop still increments the
counter from 0 to 1 for that draft. -/
theorem counter_increment_cex :
    place_bid envSelfFail draftW = [] ∧
    submit_drafts envSelfFail 10 [draftW] 0 = (1, []) := by
  constructor <;> decide

/-- C3 as amended: an identity-resolution failure aborts only that
draft's submission — no placement call happens for it and the loop
continues with the remaining drafts — but the counter is incremented
for the draft anyway. -/
theorem identity_failure_behavior (env : RunEnv) (L : Nat) (d : Draft)
    (rest : List Draft) (c : Nat) (e : String)
    (hc : c < L) (hid : env.selfId d.project_id = .error e) :
    place_bid env d = [] ∧
    submit_drafts env L (d :: rest) c = submit_drafts env L rest (c + 1) := by
  have hpb : place_bid env d = [] := by rw [place_bid, hid]
  refine ⟨hpb, ?_⟩
  rw [submit_drafts, if_neg (by omega : ¬ L ≤ c), hpb]
  simp

/-- Witness for the amended C3: with an always-failing identity oracle,
the one-draft batch is skipped but still counted. -/
theorem identity_failure_behavior_witness :
    place_bid envSelfFail draftW = [] ∧
    submit_drafts envSelfFail 10 [draftW] 0 = submit_drafts envSelfFail 10 [] 1 :=
  identity_failure_behavior envSelfFail 10 draftW [] 0 "auth down" (by decide) rfl

/-!
## Claim theorems: the pricing-reply parser (C10)
-/

theorem startsWithL_append_self (key t : List Char) :
    startsWithL key (key ++ t) = true := by
  induction key with
  | nil => rfl
  | cons p ps ih => simp [startsWithL, ih]

theorem pySpace_of_isDigit {c : Char} (h : c.isDigit = true) : pySpace c = false := by
  have h1 : '0' ≤ c ∧ c ≤ '9' := by simpa [Char.isDigit] using h
  simp only [pySpace, Bool.or_eq_false_iff, beq_eq_false_iff_ne, ne_eq]
  refine ⟨⟨⟨⟨⟨?_, ?_⟩, ?_⟩, ?_⟩, ?_⟩, ?_⟩ <;> rintro rfl <;>
    exact absurd h1.1 (by decide)

theorem dropWhile_append_of_all {p : Char → Bool} {ws t : List Char}
    (h : ∀ c ∈ ws, p c = true) :
    (ws ++ t).dropWhile p = t.dropWhile p := by
  induction ws with
  | nil => rfl
  | cons a as ih =>
    have ha : p a = true := h a (List.mem_cons_self a as)
    rw [List.cons_append, List.dropWhile_cons, if_pos ha]
    exact ih (fun c hc => h c (List.mem_cons_of_mem a hc))

theorem matchKeyNum_at_key {key ws ds v : List Char}
    (hws : ∀ c ∈ ws, pySpace c = true)
    (hd : ∀ c ∈ ds, c.isDigit = true) (hne : ds ≠ []) :
    (matchKeyNum key (key ++ (ws ++ (ds ++ v)))).isSome = true := by
  obtain ⟨d0, ds', rfl⟩ := List.exists_cons_of_ne_nil hne
  have hd0 : d0.isDigit = true := hd d0 (List.mem_cons_self d0 ds')
  rw [matchKeyNum, if_pos (startsWithL_append_self key _)]
  rw [List.drop_left, dropWhile_append_of_all hws]
  rw [List.cons_append]
  simp [List.dropWhile_cons, pySpace_of_isDigit hd0, takeDigits, hd0]

theorem findKeyNum_isSome_of_matchKeyNum {key t : List Char}
    (h : (matchKeyNum key t).isSome = true) (u : List Char) :
    (findKeyNum key (u ++ t)).isSome = true := by
  induction u with
  | nil =>
    cases t with
    | nil =>
      rw [matchKeyNum] at h
      by_cases hk : startsWithL key [] = true
      · rw [if_pos hk] at h
        simp only [List.drop_nil, List.dropWhile_nil, takeDigits] at h
        simp at h
      · rw [if_neg hk] at h
        simp at h
    | cons c cs =>
      rw [List.nil_append, findKeyNum]
      obtain ⟨n, hn⟩ := Option.isSome_iff_exists.mp h
      rw [hn]
      rfl
  | cons a u' ih =>
    rw [List.cons_append, findKeyNum]
    cases hm : matchKeyNum key (a :: (u' ++ t)) with
    | some n => rfl
    | none => exact ih

/-- C10: the parser is all-or-nothing (two integers or two `none`s,
and a reply in which exactly one key matches yields two `none`s) and
lenient: `Budget:` and `Deadline:` each followed by optional whitespace
and digits are accepted anywhere in the reply, with arbitrary
surrounding content, and when both are present the parse succeeds. -/
theorem extract_all_or_nothing_lenient :
    (∀ s : String, extract_budget_and_deadline s = (none, none) ∨
      ∃ b d, extract_budget_and_deadline s = (some b, some d))
    ∧ (∀ s : String,
        (findKeyNum budgetKey s.data = none ∨ findKeyNum deadlineKey s.data = none) →
        extract_budget_and_deadline s = (none, none))
    ∧ (∀ u ws ds v : List Char, (∀ c ∈ ws, pySpace c = true) →
        (∀ c ∈ ds, c.isDigit = true) → ds ≠ [] →
        (findKeyNum budgetKey (u ++ (budgetKey ++ (ws ++ (ds ++ v))))).isSome = true)
    ∧ (∀ u ws ds v : List Char, (∀ c ∈ ws, pySpace c = true) →
        (∀ c ∈ ds, c.isDigit = true) → ds ≠ [] →
        (findKeyNum deadlineKey (u ++ (deadlineKey ++ (ws ++ (ds ++ v))))).isSome = true)
    ∧ (∀ s : String, (findKeyNum budgetKey s.data).isSome = true →
        (findKeyNum deadlineKey s.data).isSome = true →
        ∃ b d, extract_budget_and_deadline s = (some b, some d)) := by
  refine ⟨?_, ?_, ?_, ?_, ?_⟩
  · intro s
    rw [extract_budget_and_deadline]
    cases findKeyNum budgetKey s.data with
    | none => left; rfl
    | some b =>
      cases findKeyNum deadlineKey s.data with
      | none => left; rfl
      | some d => right; exact ⟨b, d, rfl⟩
  · intro s h
    rw [extract_budget_and_deadline]
    rcases h with h | h
    · rw [h]
    · rw [h]
      cases findKeyNum budgetKey s.data <;> rfl
  · intro u ws ds v hws hd hne
    exact findKeyNum_isSome_of_matchKeyNum (matchKeyNum_at_key hws hd hne) u
  · intro u ws ds v hws hd hne
    exact findKeyNum_isSome_of_matchKeyNum (matchKeyNum_at_key hws hd hne) u
  · intro s hb hd
    obtain ⟨b, hbv⟩ := Option.isSome_iff_exists.mp hb
    obtain ⟨d, hdv⟩ := Option.isSome_iff_exists.mp hd
    rw [extract_budget_and_deadline, hbv, hdv]
    exact ⟨b, d, rfl⟩

/-- Witness for C10: the budget key with surrounding junk is still
found. -/
theorem extract_all_or_nothing_lenient_witness :
    (findKeyNum budgetKey
      ("xx ".data ++ (budgetKey ++ (" ".data ++ ("12".data ++ " yy".data))))).isSome
      = true :=
  extract_all_or_nothing_lenient.2.2.1 "xx ".data " ".data "12".data " yy".data
    (by decide) (by decide) (by decide)

/-!
## Submission-loop lemmas (inner `for` loop)
-/

theorem submit_drafts_mono (env : RunEnv) (L : Nat) :
    ∀ (ds : List Draft) (c : Nat), c ≤ (submit_drafts env L ds c).1 := by
  intro ds
  induction ds with
  | nil => intro c; rw [submit_drafts]
  | cons d rest ih =>
    intro c
    rw [submit_drafts]
    by_cases hc : L ≤ c
    · rw [if_pos hc]
    · rw [if_neg hc]
      dsimp only
      exact le_trans (Nat.le_succ c) (ih (c + 1))

theorem submit_drafts_cap (env : RunEnv) (L : Nat) :
    ∀ (ds : List Draft) (c : Nat), c ≤ L → (submit_drafts env L ds c).1 ≤ L := by
  intro ds
  induction ds with
  | nil => intro c h; rw [submit_drafts]; exact h
  | cons d rest ih =>
    intro c h
    rw [submit_drafts]
    by_cases hc : L ≤ c
    · rw [if_pos hc]; exact h
    · rw [if_neg hc]
      dsimp only
      exact ih (c + 1) (by omega)

theorem submit_drafts_events (env : RunEnv) (L : Nat) :
    ∀ (ds : List Draft) (c : Nat), ∀ te ∈ (submit_drafts env L ds c).2,
      c ≤ te.1 ∧ te.1 < L := by
  intro ds
  induction ds with
  | nil => intro c te hte; rw [submit_drafts] at hte; simp at hte
  | cons d rest ih =>
    intro c te hte
    rw [submit_drafts] at hte
    by_cases hc : L ≤ c
    · rw [if_pos hc] at hte; simp at hte
    · rw [if_neg hc] at hte
      dsimp only at hte
      rcases List.mem_append.mp hte with h1 | h2
      · obtain ⟨e, _, rfl⟩ := List.mem_map.mp h1
        exact ⟨le_refl c, by omega⟩
      · have := ih (c + 1) te h2
        exact ⟨by omega, this.2⟩

/-!
## Polling-loop lemmas (outer `while` loop)
-/

theorem runLoop_finished (env : RunEnv) (L : Nat) :
    ∀ (cycles : List FetchRes) (st : LoopSt), L ≤ st.counter →
      runLoop env L cycles st = ⟨st, [], [], .finished⟩ := by
  intro cycles st h
  cases cycles with
  | nil => rw [runLoop, if_neg (by omega)]
  | cons cyc rest =>
    cases cyc with
    | error e => rw [runLoop, if_neg (by omega)]
    | ok batch => rw [runLoop, if_neg (by omega)]

theorem runLoop_counter_mono (env : RunEnv) (L : Nat) :
    ∀ (cycles : List FetchRes) (st : LoopSt),
      st.counter ≤ (runLoop env L cycles st).final.counter := by
  intro cycles
  induction cycles with
  | nil =>
    intro st
    rw [runLoop]
    by_cases h : st.counter < L
    · rw [if_pos h]
    · rw [if_neg h]
  | cons cyc rest ih =>
    intro st
    cases cyc with
    | error e =>
      rw [runLoop]
      by_cases h : st.counter < L
      · rw [if_pos h]
        exact ih st
      · rw [if_neg h]
    | ok batch =>
      rw [runLoop]
      by_cases h : st.counter < L
      · rw [if_pos h]
        dsimp only
        cases hf : filter_projects env.userLookup env.detailLookup
            (batch.filter fun p => !(st.processed.contains p.id)) with
        | error e =>
          dsimp only
          exact le_refl _
        | ok filtered =>
          dsimp only
          exact le_trans (submit_drafts_mono env L _ st.counter) (ih ⟨_, _⟩)
      · rw [if_neg h]

theorem runLoop_cap_events (env : RunEnv) (L : Nat) :
    ∀ (cycles : List FetchRes) (st : LoopSt), st.counter ≤ L →
      (runLoop env L cycles st).final.counter ≤ L ∧
      (∀ te ∈ (runLoop env L cycles st).events, te.1 < L) := by
  intro cycles
  induction cycles with
  | nil =>
    intro st h
    rw [runLoop]
    by_cases hc : st.counter < L
    · rw [if_pos hc]
      exact ⟨h, by simp⟩
    · rw [if_neg hc]
      exact ⟨h, by simp⟩
  | cons cyc rest ih =>
    intro st h
    cases cyc with
    | error e =>
      rw [runLoop]
      by_cases hc : st.counter < L
      · rw [if_pos hc]
        exact ih st h
      · rw [if_neg hc]
        exact ⟨h, by simp⟩
    | ok batch =>
      rw [runLoop]
      by_cases hc : st.counter < L
      · rw [if_pos hc]
        dsimp only
        cases hf : filter_projects env.userLookup env.detailLookup
            (batch.filter fun p => !(st.processed.contains p.id)) with
        | error e =>
          dsimp only
          exact ⟨h, by simp⟩
        | ok filtered =>
          dsimp only
          have hsub := submit_drafts_cap env L
            (shortlist_projects_and_generate_bids env.analyzeOracle env.contentOracle
              (refine_projects_with_llm env.matchOracle filtered)) st.counter h
          have hev := submit_drafts_events env L
            (shortlist_projects_and_generate_bids env.analyzeOracle env.contentOracle
              (refine_projects_with_llm env.matchOracle filtered)) st.counter
          obtain ⟨ih1, ih2⟩ := ih ⟨_, _⟩ hsub
          refine ⟨ih1, ?_⟩
          intro te hte
          rcases List.mem_append.mp hte with h1 | h2
          · exact (hev te h1).2
          · exact ih2 te h2
      · rw [if_neg hc]
        exact ⟨h, by simp⟩

theorem mem_insertFold (ps : List RawProject) :
    ∀ (acc : List Nat) (x : Nat), x ∈ acc →
      x ∈ ps.foldl (fun a p => a.insert p.id) acc := by
  induction ps with
  | nil => intro acc x h; simpa using h
  | cons q qs ih =>
    intro acc x h
    rw [List.foldl_cons]
    exact ih _ x (List.mem_insert_iff.mpr (Or.inr h))

theorem memIds_insertFold (ps : List RawProject) :
    ∀ (acc : List Nat) (x : Nat), x ∈ ps.map (fun p => p.id) →
      x ∈ ps.foldl (fun a p => a.insert p.id) acc := by
  induction ps with
  | nil => intro acc x h; simp at h
  | cons q qs ih =>
    intro acc x h
    rw [List.foldl_cons]
    rw [List.map_cons, List.mem_cons] at h
    rcases h with rfl | h
    · exact mem_insertFold qs _ _ (List.mem_insert_iff.mpr (Or.inl rfl))
    · exact ih _ x h

theorem runLoop_processed_mono (env : RunEnv) (L : Nat) :
    ∀ (cycles : List FetchRes) (st : LoopSt) (x : Nat), x ∈ st.processed →
      x ∈ (runLoop env L cycles st).final.processed := by
  intro cycles
  induction cycles with
  | nil =>
    intro st x h
    rw [runLoop]
    by_cases hc : st.counter < L
    · rw [if_pos hc]; exact h
    · rw [if_neg hc]; exact h
  | cons cyc rest ih =>
    intro st x h
    cases cyc with
    | error e =>
      rw [runLoop]
      by_cases hc : st.counter < L
      · rw [if_pos hc]
        exact ih st x h
      · rw [if_neg hc]; exact h
    | ok batch =>
      rw [runLoop]
      by_cases hc : st.counter < L
      · rw [if_pos hc]
        dsimp only
        cases hf : filter_projects env.userLookup env.detailLookup
            (batch.filter fun p => !(st.processed.contains p.id)) with
        | error e =>
          dsimp only
          exact mem_insertFold _ _ _ h
        | ok filtered =>
          dsimp only
          exact ih ⟨_, _⟩ x (mem_insertFold _ _ _ h)
      · rw [if_neg hc]; exact h

theorem runLoop_news_inv (env : RunEnv) (L : Nat) :
    ∀ (cycles : List FetchRes) (st : LoopSt),
      (∀ s ∈ (runLoop env L cycles st).newsSets, ∀ x ∈ s,
        x ∉ st.processed ∧ x ∈ (runLoop env L cycles st).final.processed)
      ∧ List.Pairwise (fun s t => ∀ x, x ∈ s → x ∉ t)
          (runLoop env L cycles st).newsSets := by
  intro cycles
  induction cycles with
  | nil =>
    intro st
    rw [runLoop]
    by_cases hc : st.counter < L
    · rw [if_pos hc]; exact ⟨by simp, by simp⟩
    · rw [if_neg hc]; exact ⟨by simp, by simp⟩
  | cons cyc rest ih =>
    intro st
    cases cyc with
    | error e =>
      rw [runLoop]
      by_cases hc : st.counter < L
      · rw [if_pos hc]; exact ih st
      · rw [if_neg hc]; exact ⟨by simp, by simp⟩
    | ok batch =>
      rw [runLoop]
      by_cases hc : st.counter < L
      swap
      · rw [if_neg hc]; exact ⟨by simp, by simp⟩
      rw [if_pos hc]
      dsimp only
      have hnotin : ∀ x ∈ (batch.filter fun p => !(st.processed.contains p.id)).map
          (fun p => p.id), x ∉ st.processed := by
        intro x hx
        obtain ⟨p, hp, rfl⟩ := List.mem_map.mp hx
        have h2 := (List.mem_filter.mp hp).2
        simp at h2
        exact h2
      cases hf : filter_projects env.userLookup env.detailLookup
          (batch.filter fun p => !(st.processed.contains p.id)) with
      | error e =>
        dsimp only
        constructor
        · intro s hs x hx
          rw [List.mem_singleton] at hs
          subst hs
          exact ⟨hnotin x hx, memIds_insertFold _ _ _ hx⟩
        · simp
      | ok filtered =>
        dsimp only
        obtain ⟨ihA, ihB⟩ := ih ⟨(batch.filter fun p => !(st.processed.contains p.id)).foldl
            (fun a p => a.insert p.id) st.processed,
          (submit_drafts env L (shortlist_projects_and_generate_bids env.analyzeOracle
            env.contentOracle (refine_projects_with_llm env.matchOracle filtered))
            st.counter).1⟩
        constructor
        · intro s hs x hx
          rcases List.mem_cons.mp hs with rfl | hs'
          · refine ⟨hnotin x hx, ?_⟩
            exact runLoop_processed_mono env L rest _ x (memIds_insertFold _ _ _ hx)
          · have h3 := ihA s hs' x hx
            exact ⟨fun hmem => h3.1 (mem_insertFold _ _ _ hmem), h3.2⟩
        · rw [List.pairwise_cons]
          refine ⟨?_, ihB⟩
          intro t ht x hxnew hxt
          exact (ihA t ht x hxt).1 (memIds_insertFold _ _ _ hxnew)

/-!
## Claim theorems: cap and dedup invariants (C1, C2)
-/

/-- C1: in every run started with `bid_counter = 0`, the counter is
non-decreasing (across every suffix of the run), never exceeds the
configured cap, every placement-stage event happens strictly below the
cap, and as soon as the counter is at the cap the loop makes no further
calls and terminates (reports `finished` without consuming cycles). -/
theorem bid_cap_invariant (env : RunEnv) (L : Nat) (cycles : List FetchRes)
    (p0 : List Nat) :
    ((runLoop env L cycles ⟨p0, 0⟩).final.counter ≤ L)
    ∧ (∀ (cycles2 : List FetchRes) (st : LoopSt),
        st.counter ≤ (runLoop env L cycles2 st).final.counter)
    ∧ (∀ te ∈ (runLoop env L cycles ⟨p0, 0⟩).events, te.1 < L)
    ∧ (∀ (cycles2 : List FetchRes) (st : LoopSt), L ≤ st.counter →
        runLoop env L cycles2 st = ⟨st, [], [], RunEnd.finished⟩) :=
  ⟨(runLoop_cap_events env L cycles ⟨p0, 0⟩ (Nat.zero_le L)).1,
   runLoop_counter_mono env L,
   (runLoop_cap_events env L cycles ⟨p0, 0⟩ (Nat.zero_le L)).2,
   runLoop_finished env L⟩

/-- Witness for C1: a run already at the cap terminates at once with no
events. -/
theorem bid_cap_invariant_witness :
    runLoop envOk 2 [] ⟨[], 5⟩ = ⟨⟨[], 5⟩, [], [], RunEnd.finished⟩ :=
  (bid_cap_invariant envOk 2 [] []).2.2.2 [] ⟨[], 5⟩ (by decide)

/-- C2: across every run started with an empty `ProcessedSet`, the
per-cycle `new_projects` id sets are pairwise disjoint (an id is new in
at most one cycle), every id that was ever new ends up in the final
`ProcessedSet` (ids are recorded before filtering, so this holds even
when a later stage crashes or rejects the project), and ids already in
the set are never removed by any run segment. -/
theorem dedup_invariant (env : RunEnv) (L : Nat) (cycles : List FetchRes) :
    List.Pairwise (fun s t => ∀ x, x ∈ s → x ∉ t)
      (runLoop env L cycles ⟨[], 0⟩).newsSets
    ∧ (∀ s ∈ (runLoop env L cycles ⟨[], 0⟩).newsSets, ∀ x ∈ s,
        x ∈ (runLoop env L cycles ⟨[], 0⟩).final.processed)
    ∧ (∀ (cycles2 : List FetchRes) (st : LoopSt) (x : Nat), x ∈ st.processed →
        x ∈ (runLoop env L cycles2 st).final.processed) := by
  refine ⟨(runLoop_news_inv env L cycles ⟨[], 0⟩).2, ?_, runLoop_processed_mono env L⟩
  intro s hs x hx
  exact ((runLoop_news_inv env L cycles ⟨[], 0⟩).1 s hs x hx).2

/-- Witness for C2: an id already processed stays processed across a
run segment. -/
theorem dedup_invariant_witness :
    (5 : Nat) ∈ (runLoop envOk 1 [] ⟨[5], 0⟩).final.processed :=
  (dedup_invariant envOk 1 []).2.2 [] ⟨[5], 0⟩ 5 (by decide)
